import Mathlib

/-!
# Power Distributor — verification of the OA state machine and distribution engine

Shallow embedding of `custom_components/power_distributor/sensor.py` (and the
input-gathering part of its controller loop) over exact rational arithmetic.

Modelling conventions:
* Python floats are modelled as `ℚ`; float literals of the source (1.05, 1.20,
  0.80, 100.0, …) are exact decimals and translate exactly.
* Timestamps (`datetime.now()`, `ramp_start`, `_last_update_time`) are modelled
  as rational numbers measured in minutes, so the source's
  `.total_seconds() / 60.0` conversions collapse into plain subtraction.
  The wall-clock samples taken inside one tick (`run_distribution` line 174 and
  each `_update_oa_state` call, line 115) are modelled as a single sampled
  instant `now`, passed explicitly as the model of the internal clock read.
* A Python expression that raises (`ZeroDivisionError` from the unguarded
  division by `state['ramp_dur']`, or a `TypeError` from using a `None`
  `ramp_dur`) is modelled by `Option`: the embedded function returns `none`
  exactly where the source raises.
* `round(x, 2)` on our rational embedding is modelled as exact
  round-half-to-even of `100 * x` (Python's rounding mode), divided by 100.
-/

namespace PowerDistributor

/-- Constant `NUM_CONSUMERS` from `const.py`. -/
def NUM_CONSUMERS : Nat := 4

/-- Immutable engine configuration: the two hard limits and the six tuning
durations (minutes), as read by `PowerManagement.__init__`. -/
structure Config where
  max_combined_load : ℚ
  max_individual_load : ℚ
  delay_5 : ℚ
  delay_20 : ℚ
  ramp_5 : ℚ
  ramp_20 : ℚ
  recover_fast : ℚ
  recover_slow : ℚ
deriving DecidableEq, Repr

/-- The default configuration values from `const.py`. -/
def defaultConfig : Config :=
  { max_combined_load := 16
    max_individual_load := 4
    delay_5 := 10
    delay_20 := 2
    ramp_5 := 10
    ramp_20 := 5
    recover_fast := 20
    recover_slow := 60 }

/-- Function `_interpolate_value(x, x1, y1, x2, y2)`: linear interpolation between
`(x1, y1)` and `(x2, y2)`, clamped at the endpoints. -/
def interpolate_value (x x1 y1 x2 y2 : ℚ) : ℚ :=
  if x1 = x2 then y1
  else if x ≤ x1 then y1
  else if x ≥ x2 then y2
  else y1 + (x - x1) * (y2 - y1) / (x2 - x1)

/-- Method `PowerManagement._calculate_oa_timing`: overload ratio capped at 1.20, then
delay interpolated between `(1.05, delay_5)` and `(1.20, delay_20)` and ramp
duration between `(1.05, ramp_5)` and `(1.20, ramp_20)`. -/
def calculate_oa_timing (cfg : Config) (overload_ratio : ℚ) : ℚ × ℚ :=
  let ratio := min 1.20 overload_ratio
  (interpolate_value ratio 1.05 cfg.delay_5 1.20 cfg.delay_20,
   interpolate_value ratio 1.05 cfg.ramp_5 1.20 cfg.ramp_20)

/-- Method `PowerManagement._calculate_recovery_time`: recovery duration interpolated
between `(0.80, recover_fast)` and `(1.00, recover_slow)`. -/
def calculate_recovery_time (cfg : Config) (load_ratio : ℚ) : ℚ :=
  interpolate_value load_ratio 0.80 cfg.recover_fast 1.00 cfg.recover_slow

/-- Local `rate_rise_per_min` of line 130: `100.0 / T_recover if T_recover > 0 else 100.0`,
with `T_recover = _calculate_recovery_time(load_ratio)`. -/
def rate_rise_per_min (cfg : Config) (load_ratio : ℚ) : ℚ :=
  if 0 < calculate_recovery_time cfg load_ratio then
    100 / calculate_recovery_time cfg load_ratio
  else 100

/-- Local `rate_consume_per_min` of line 139: `100.0 / T_delay if T_delay > 0 else 100.0`,
with `T_delay` the first component of `_calculate_oa_timing(overload_ratio)`. -/
def rate_consume_per_min (cfg : Config) (overload_ratio : ℚ) : ℚ :=
  if 0 < (calculate_oa_timing cfg overload_ratio).1 then
    100 / (calculate_oa_timing cfg overload_ratio).1
  else 100

/-- One OA record: the dictionary
`{'oa': …, 'ramp_start': …, 'init_factor': …, 'ramp_dur': …}` kept per
overload-accepting entity (the combined circuit and each of the 4 units). -/
structure OAState where
  oa : ℚ
  ramp_start : Option ℚ
  init_factor : ℚ
  ramp_dur : Option ℚ
deriving DecidableEq, Repr

/-- The initial OA record built in `PowerManagement.__init__`:
`oa = 100`, no ramp bookkeeping, `init_factor = 1.0`. -/
def initOAState : OAState :=
  { oa := 100, ramp_start := none, init_factor := 1, ramp_dur := none }

/-- Method `PowerManagement._update_oa_state(current_load, reference_limit, state,
time_delta_min)`.  Returns `some (limit_factor, new_state)`, or `none` where
the source raises: the division `time_elapsed_min / state['ramp_dur']`
(line 158) is unguarded, so a zero `ramp_dur` raises `ZeroDivisionError` and a
`None` `ramp_dur` raises `TypeError`.  The internally sampled
`now = datetime.now()` (line 115) is the explicit parameter `now`. -/
def update_oa_state (cfg : Config) (current_load reference_limit : ℚ)
    (state : OAState) (time_delta_min : ℚ) (now : ℚ) : Option (ℚ × OAState) :=
  -- "Avoid division by zero"
  if reference_limit ≤ 0 then some (1, state)
  else
    let overload_ratio := current_load / reference_limit
    if current_load ≤ reference_limit then
      -- RECOVERY (Load <= Limit)
      let state := { state with ramp_start := none }
      let load_ratio := max 0 (min 1 (current_load / reference_limit))
      let state := { state with
        oa := min 100 (state.oa + rate_rise_per_min cfg load_ratio * time_delta_min) }
      some (max 1 overload_ratio, state)
    else
      -- CONSUMPTION (Load > Limit)
      let T_ramp := (calculate_oa_timing cfg overload_ratio).2
      let state := { state with
        oa := max 0 (state.oa - rate_consume_per_min cfg overload_ratio * time_delta_min) }
      if state.oa > 0 then
        -- Accepted Overload Phase (OA > 0): no limiting applied yet.
        some (overload_ratio, { state with ramp_start := none })
      else
        -- LIMITING (Ramping Down) Phase (OA <= 0)
        let state :=
          if state.ramp_start = none then
            { state with ramp_start := some now, ramp_dur := some T_ramp,
                         init_factor := overload_ratio }
          else state
        match state.ramp_start, state.ramp_dur with
        | some rs, some rd =>
          if rd = 0 then none  -- ZeroDivisionError at `time_elapsed_min / state['ramp_dur']`
          else
            let time_elapsed_min := now - rs
            let ramp_progress := min 1 (time_elapsed_min / rd)
            let current_limit_factor :=
              state.init_factor - (state.init_factor - 1) * ramp_progress
            if ramp_progress ≥ 1 then some (1, { state with oa := 0 })
            else some (current_limit_factor, state)
        | _, _ => none  -- `ramp_dur` is None: the source would raise TypeError

/-- The mutable fields of `PowerManagement`: the combined OA record, the list
of `NUM_CONSUMERS` per-unit OA records, and `_last_update_time`. -/
structure EngineState where
  combined : OAState
  consumers : List OAState
  last_update_time : ℚ
deriving DecidableEq, Repr

/-- The engine state built by `PowerManagement.__init__` when constructed at
instant `t0` (the `datetime.now()` sample of line 95). -/
def initial_state (t0 : ℚ) : EngineState :=
  { combined := initOAState
    consumers := List.replicate NUM_CONSUMERS initOAState
    last_update_time := t0 }

/-- Round-half-to-even of a rational to an integer (Python's rounding mode,
applied here to the exact rational value). -/
def roundHalfEven (x : ℚ) : ℤ :=
  let n := ⌊x⌋
  let f := x - n
  if f < 1/2 then n
  else if 1/2 < f then n + 1
  else if Even n then n else n + 1

/-- Python `round(x, 2)` of the source, on the rational embedding. -/
def pyRound2 (x : ℚ) : ℚ := (roundHalfEven (100 * x) : ℚ) / 100

/-- The result dictionary returned by `run_distribution`. -/
structure DistributionResult where
  combined_oa_percent : ℚ
  current_combined_limit_A : ℚ
  available_managed_capacity_A : ℚ
  individual_oa_percents : List ℚ
  final_limits_A : List ℚ
  units_pre_capped_demand_A : List ℚ
deriving DecidableEq, Repr

/-- The per-unit loop of `run_distribution` (step 2): for each
`(requested_load, consumer_state)` pair, update the unit's OA state against
`max_individual_load`, record the rounded OA percent, and cap the request by
the unit's OA cap `max_individual_load * factor`.  Returns
`(new_states, individual_oa_percents, pre_capped_requests)`. -/
def run_units (cfg : Config) (pairs : List (ℚ × OAState)) (dt now : ℚ) :
    Option (List OAState × List ℚ × List ℚ) :=
  match pairs with
  | [] => some ([], [], [])
  | (requested_load, st) :: rest =>
    match update_oa_state cfg requested_load cfg.max_individual_load st dt now with
    | none => none
    | some (individual_limit_factor, st2) =>
      match run_units cfg rest dt now with
      | none => none
      | some (sts, oas, pres) =>
        let consumer_oa_cap := cfg.max_individual_load * individual_limit_factor
        let pre_capped_request := min requested_load consumer_oa_cap
        some (st2 :: sts, pyRound2 st2.oa :: oas, pre_capped_request :: pres)

/-- Step 3 of `run_distribution` (lines 236–245): the proportional
distribution of `X_managed_capacity` over the pre-capped requests. -/
def final_limits_calc (X_managed_capacity : ℚ) (pre_capped_requests : List ℚ) : List ℚ :=
  if X_managed_capacity ≥ pre_capped_requests.sum then pre_capped_requests
  else if pre_capped_requests.sum > 0 then
    let scaling_factor := X_managed_capacity / pre_capped_requests.sum
    pre_capped_requests.map (fun load => load * scaling_factor)
  else List.replicate NUM_CONSUMERS 0

/-- Method `PowerManagement.run_distribution(L_combined_actual, L_units_actual)`.
The internally sampled `now = datetime.now()` (line 174) is the explicit
parameter `now`; `time_delta_min` is derived from it and the stored
`_last_update_time`, exactly as in the source.  The per-unit loop
(`for i, requested_load in enumerate(L_units_actual)` indexing
`self._consumer_oa_states[i]`) is modelled by zipping the two lists; consumer
records beyond the length of `L_units_actual` are left untouched.  Returns
`none` exactly where the source raises (see `update_oa_state`). -/
def run_distribution (cfg : Config) (s : EngineState)
    (L_combined_actual : ℚ) (L_units_actual : List ℚ) (now : ℚ) :
    Option (EngineState × DistributionResult) :=
  let time_delta_min := now - s.last_update_time
  let L_units_total := L_units_actual.sum
  let L_unmanaged_actual := max 0 (L_combined_actual - L_units_total)
  -- 1. Update COMBINED Overload Acceptance
  match update_oa_state cfg L_combined_actual cfg.max_combined_load
          s.combined time_delta_min now with
  | none => none
  | some (combined_limit_factor, combined2) =>
    let current_combined_limit :=
      if combined_limit_factor > 1 then L_combined_actual
      else cfg.max_combined_load * combined_limit_factor
    let X_managed_capacity := max 0 (current_combined_limit - L_unmanaged_actual)
    -- 2. Update INDIVIDUAL Overload Acceptance
    match run_units cfg (L_units_actual.zip s.consumers) time_delta_min now with
    | none => none
    | some (consumers2, individual_oa_percents, pre_capped_requests) =>
      -- 3. Proportional Distribution
      let final_limits := final_limits_calc X_managed_capacity pre_capped_requests
      some ({ combined := combined2
              consumers := consumers2 ++ s.consumers.drop L_units_actual.length
              last_update_time := now },
            { combined_oa_percent := pyRound2 combined2.oa
              current_combined_limit_A := pyRound2 current_combined_limit
              available_managed_capacity_A := pyRound2 X_managed_capacity
              individual_oa_percents := individual_oa_percents
              final_limits_A := final_limits.map pyRound2
              units_pre_capped_demand_A := pre_capped_requests.map pyRound2 })

/-- A Home Assistant state object, as consumed by `get_float_state`: only its
`state` string matters there. -/
structure HAState where
  state : String
deriving DecidableEq, Repr

/-- Helper `get_float_state(state)`.  `pyFloat` models Python's `float(...)` on a
string: `some q` when the string parses, `none` when `float` would raise
`ValueError`/`TypeError` (the source catches those and returns `None`). -/
def get_float_state (pyFloat : String → Option ℚ) (st : Option HAState) : Option ℚ :=
  match st with
  | none => none
  | some s =>
    if s.state = "unavailable" ∨ s.state = "unknown" then none
    else pyFloat s.state

/-- The input-gathering and dispatch core of `async_run_controller`
(lines 397–422): read the combined and per-unit source states, treat a missing
unit reading as 0.0, skip the whole tick when the combined reading is missing
(previous state and previous published result stand), otherwise run
`run_distribution` and publish its result.  The `try/except` boundary of the
source is modelled coarsely: a raising tick is `none`. -/
def run_controller (pyFloat : String → Option ℚ) (cfg : Config)
    (s : EngineState) (prev : DistributionResult)
    (combined_state : Option HAState) (unit_states : List (Option HAState))
    (now : ℚ) : Option (EngineState × DistributionResult) :=
  let L_combined_actual := get_float_state pyFloat combined_state
  let L_units_actual :=
    unit_states.map (fun u => (get_float_state pyFloat u).getD 0)
  match L_combined_actual with
  | none => some (s, prev)
  | some L => run_distribution cfg s L L_units_actual now

/-- Structural invariant of one OA record, maintained by every successful
update from the initial record: the OA percent stays in `[0, 100]`, the
captured `init_factor` is at least 1, and ramp bookkeeping is only present —
with a duration — while the OA buffer is exhausted. -/
def OAInv (st : OAState) : Prop :=
  0 ≤ st.oa ∧ st.oa ≤ 100 ∧ 1 ≤ st.init_factor ∧
  (st.ramp_start ≠ none → st.oa = 0) ∧
  (st.ramp_start ≠ none → st.ramp_dur ≠ none)

/-- Every stored `ramp_dur` is positive (maintained by reachable states when
the configured ramp durations are positive). -/
def OAInvRamp (st : OAState) : Prop :=
  ∀ d, st.ramp_dur = some d → 0 < d

/-- Invariant of the whole engine state: each of the five OA records
satisfies `OAInv`, and there are `NUM_CONSUMERS` unit records. -/
def EngineInv (s : EngineState) : Prop :=
  OAInv s.combined ∧ (∀ st ∈ s.consumers, OAInv st) ∧
  s.consumers.length = NUM_CONSUMERS

/-- Engine states reachable from a fresh engine by successful ticks whose
sampled clock does not run backwards (so `time_delta_min ≥ 0`, as with the
monotone wall clock of the source). -/
inductive Reachable (cfg : Config) : EngineState → Prop
  | init (t0 : ℚ) : Reachable cfg (initial_state t0)
  | step {s s2 : EngineState} {L : ℚ} {Lu : List ℚ} {now : ℚ} {r : DistributionResult} :
      Reachable cfg s → s.last_update_time ≤ now →
      run_distribution cfg s L Lu now = some (s2, r) → Reachable cfg s2

/-! ## Branch-equation lemmas for `update_oa_state` -/

/-- A non-positive reference limit short-circuits to factor 1 (line 118). -/
theorem update_oa_state_nonpos_ref {cfg : Config} {load ref : ℚ} {st : OAState}
    {dt now : ℚ} (h : ref ≤ 0) :
    update_oa_state cfg load ref st dt now = some (1, st) := by
  simp [update_oa_state, h]

/-- The RECOVERY branch (`0 < ref`, `load ≤ ref`). -/
theorem update_oa_state_recovery {cfg : Config} {load ref : ℚ} {st : OAState}
    {dt now : ℚ} (h0 : 0 < ref) (h1 : load ≤ ref) :
    update_oa_state cfg load ref st dt now =
      some (max 1 (load / ref),
        { oa := min 100 (st.oa +
            rate_rise_per_min cfg (max 0 (min 1 (load / ref))) * dt),
          ramp_start := none, init_factor := st.init_factor, ramp_dur := st.ramp_dur }) := by
  simp only [update_oa_state, if_neg (not_le.mpr h0), if_pos h1]

/-- The ACCEPTING branch (`0 < ref`, `ref < load`, OA still positive after the
decay). -/
theorem update_oa_state_accept {cfg : Config} {load ref : ℚ} {st : OAState}
    {dt now : ℚ} (h0 : 0 < ref) (h1 : ref < load)
    (h2 : 0 < st.oa - rate_consume_per_min cfg (load / ref) * dt) :
    update_oa_state cfg load ref st dt now =
      some (load / ref,
        { oa := max 0 (st.oa - rate_consume_per_min cfg (load / ref) * dt),
          ramp_start := none, init_factor := st.init_factor, ramp_dur := st.ramp_dur }) := by
  have h2' : 0 < max 0 (st.oa - rate_consume_per_min cfg (load / ref) * dt) :=
    lt_max_of_lt_right h2
  simp only [update_oa_state, if_neg (not_le.mpr h0), if_neg (not_le.mpr h1), if_pos h2']

/-- The RAMPING branch with a ramp already in progress (`0 < ref`, `ref < load`,
OA exhausted, `ramp_start` present). -/
theorem update_oa_state_ramp_cont {cfg : Config} {load ref : ℚ} {st : OAState}
    {dt now rs rd : ℚ} (h0 : 0 < ref) (h1 : ref < load)
    (h2 : st.oa - rate_consume_per_min cfg (load / ref) * dt ≤ 0)
    (hrs : st.ramp_start = some rs) (hrd : st.ramp_dur = some rd) (hrd0 : rd ≠ 0) :
    update_oa_state cfg load ref st dt now =
      (if 1 ≤ min 1 ((now - rs) / rd) then
        some (1, { oa := 0, ramp_start := some rs,
                   init_factor := st.init_factor, ramp_dur := some rd })
      else
        some (st.init_factor - (st.init_factor - 1) * min 1 ((now - rs) / rd),
              { oa := 0, ramp_start := some rs,
                init_factor := st.init_factor, ramp_dur := some rd })) := by
  have hmax : max 0 (st.oa - rate_consume_per_min cfg (load / ref) * dt) = 0 :=
    max_eq_left h2
  simp only [update_oa_state, if_neg (not_le.mpr h0), if_neg (not_le.mpr h1),
    hmax, lt_irrefl, if_false, hrs, hrd, if_neg (Option.some_ne_none rs), ge_iff_le,
    if_neg hrd0]

/-- The RAMPING branch at ramp entry (`0 < ref`, `ref < load`, OA exhausted,
no ramp in progress): `ramp_start`, `ramp_dur` and `init_factor` are captured,
and the factor returned is the entry overload ratio (ramp progress 0) —
unless the freshly captured ramp duration is zero, in which case the source
raises `ZeroDivisionError`. -/
theorem update_oa_state_ramp_entry {cfg : Config} {load ref : ℚ} {st : OAState}
    {dt now : ℚ} (h0 : 0 < ref) (h1 : ref < load)
    (h2 : st.oa - rate_consume_per_min cfg (load / ref) * dt ≤ 0)
    (hrs : st.ramp_start = none) :
    update_oa_state cfg load ref st dt now =
      (if (calculate_oa_timing cfg (load / ref)).2 = 0 then none
       else
        some (load / ref,
          { oa := 0, ramp_start := some now, init_factor := load / ref,
            ramp_dur := some (calculate_oa_timing cfg (load / ref)).2 })) := by
  have hmax : max 0 (st.oa - rate_consume_per_min cfg (load / ref) * dt) = 0 :=
    max_eq_left h2
  by_cases hT : (calculate_oa_timing cfg (load / ref)).2 = 0
  · simp only [update_oa_state, if_neg (not_le.mpr h0), if_neg (not_le.mpr h1),
      hmax, lt_irrefl, if_false, hrs, if_pos rfl, ite_true, if_pos hT, hT]
  · simp only [update_oa_state, if_neg (not_le.mpr h0), if_neg (not_le.mpr h1),
      hmax, lt_irrefl, if_false, hrs, if_pos rfl, ite_true, if_neg hT, sub_self,
      zero_div, ge_iff_le]
    norm_num

/-! ## Arithmetic helper lemmas -/

/-- Interpolation between two positive endpoint values is positive. -/
theorem interpolate_value_pos {x x1 y1 x2 y2 : ℚ} (h1 : 0 < y1) (h2 : 0 < y2) :
    0 < interpolate_value x x1 y1 x2 y2 := by
  unfold interpolate_value
  split_ifs with ha hb hc
  · exact h1
  · exact h1
  · exact h2
  · have hx1 : x1 < x := lt_of_not_le hb
    have hx2 : x < x2 := lt_of_not_ge hc
    have hd : (0 : ℚ) < x2 - x1 := by linarith
    have key : y1 + (x - x1) * (y2 - y1) / (x2 - x1) =
        ((x2 - x) * y1 + (x - x1) * y2) / (x2 - x1) := by
      field_simp
      ring
    rw [key]
    apply div_pos _ hd
    have k1 := mul_pos (show (0:ℚ) < x2 - x by linarith) h1
    have k2 := mul_pos (show (0:ℚ) < x - x1 by linarith) h2
    linarith

/-- The consumption rate of line 139 is always positive. -/
theorem rate_consume_per_min_pos (cfg : Config) (r : ℚ) :
    0 < rate_consume_per_min cfg r := by
  unfold rate_consume_per_min
  split_ifs with h
  · exact div_pos (by norm_num) h
  · norm_num

/-- The recovery rate of line 130 is always positive. -/
theorem rate_rise_per_min_pos (cfg : Config) (r : ℚ) :
    0 < rate_rise_per_min cfg r := by
  unfold rate_rise_per_min
  split_ifs with h
  · exact div_pos (by norm_num) h
  · norm_num

/-- With positive ramp tuning parameters, the interpolated ramp duration is
positive. -/
theorem T_ramp_pos {cfg : Config} (h5 : 0 < cfg.ramp_5) (h20 : 0 < cfg.ramp_20)
    (r : ℚ) : 0 < (calculate_oa_timing cfg r).2 := by
  unfold calculate_oa_timing
  exact interpolate_value_pos h5 h20

/-- Summing a list scaled elementwise scales the sum. -/
theorem list_sum_map_mul (l : List ℚ) (c : ℚ) :
    (l.map (fun x => x * c)).sum = l.sum * c := by
  induction l with
  | nil => simp
  | cons a t ih => simp [ih]; ring

/-- C5 (proportional-fairness exactness): whenever
`managed_capacity < demand_total` and `demand_total > 0`, the distribution
step scales every pre-capped request by exactly `managed_capacity /
demand_total` — so each final limit equals its pre-capped request times that
ratio, each nonzero request's final-to-request ratio equals
`managed_capacity / demand_total` exactly, and the final limits sum to
exactly `managed_capacity`. -/
theorem C5_proportional_fairness (X : ℚ) (pres : List ℚ)
    (hlt : X < pres.sum) (hpos : 0 < pres.sum) :
    (final_limits_calc X pres).length = pres.length ∧
    (∀ i (hi : i < pres.length) (hj : i < (final_limits_calc X pres).length),
      (final_limits_calc X pres).get ⟨i, hj⟩ = pres.get ⟨i, hi⟩ * (X / pres.sum) ∧
      (pres.get ⟨i, hi⟩ ≠ 0 →
        (final_limits_calc X pres).get ⟨i, hj⟩ / pres.get ⟨i, hi⟩ = X / pres.sum)) ∧
    (final_limits_calc X pres).sum = X := by
  have hne : ¬ X ≥ pres.sum := not_le.mpr hlt
  have hcalc : final_limits_calc X pres = pres.map (fun load => load * (X / pres.sum)) := by
    unfold final_limits_calc
    rw [if_neg hne, if_pos hpos]
  refine ⟨by rw [hcalc]; exact List.length_map _ _, ?_, ?_⟩
  · intro i hi hj
    have hget : (final_limits_calc X pres).get ⟨i, hj⟩ = pres.get ⟨i, hi⟩ * (X / pres.sum) := by
      simp only [List.get_eq_getElem]
      simp only [hcalc, List.getElem_map]
    refine ⟨hget, fun hz => ?_⟩
    rw [hget, mul_comm, mul_div_assoc, div_self hz, mul_one]
  · rw [hcalc, list_sum_map_mul, mul_comm]
    exact div_mul_cancel₀ X (ne_of_gt hpos)

/-- Witness for C5 at `managed_capacity = 8`, `pre_capped = [4, 4, 4, 4]`. -/
theorem C5_proportional_fairness_witness :
    (8 : ℚ) < ([4, 4, 4, 4] : List ℚ).sum ∧
    (final_limits_calc 8 [4, 4, 4, 4]).sum = 8 :=
  ⟨by norm_num, (C5_proportional_fairness 8 [4, 4, 4, 4] (by norm_num) (by norm_num)).2.2⟩

/-- C4 (ramp linearity): in the RAMPING state — OA exhausted, load above a
positive reference limit, `ramp_start = rs`, positive captured
`ramp_duration = d`, captured `init_factor = f0` — the limit factor returned
at ramp fraction `p = (now − rs)/d` equals exactly `f0 − (f0 − 1)·p` for
`p ∈ [0, 1]`, and equals exactly 1 whenever `p ≥ 1`. -/
theorem C4_ramp_linearity {cfg : Config} {load ref : ℚ} {st : OAState}
    {dt now rs d f0 : ℚ} (href : 0 < ref) (hload : ref < load) (hoa : st.oa = 0)
    (hdt : 0 ≤ dt) (hrs : st.ramp_start = some rs) (hrd : st.ramp_dur = some d)
    (hd : 0 < d) (hf0 : st.init_factor = f0) :
    (0 ≤ (now - rs) / d → (now - rs) / d ≤ 1 →
      (update_oa_state cfg load ref st dt now).map Prod.fst =
        some (f0 - (f0 - 1) * ((now - rs) / d))) ∧
    (1 ≤ (now - rs) / d →
      (update_oa_state cfg load ref st dt now).map Prod.fst = some 1) := by
  have hrate := rate_consume_per_min_pos cfg (load / ref)
  have h2 : st.oa - rate_consume_per_min cfg (load / ref) * dt ≤ 0 := by
    rw [hoa]
    nlinarith
  rw [update_oa_state_ramp_cont href hload h2 hrs hrd (ne_of_gt hd)]
  constructor
  · intro hp0 hp1
    by_cases hge : 1 ≤ min 1 ((now - rs) / d)
    · rw [if_pos hge]
      have heq : (now - rs) / d = 1 :=
        le_antisymm hp1 (le_trans hge (min_le_right _ _))
      simp only [Option.map_some']
      congr 1
      rw [heq]
      ring
    · rw [if_neg hge]
      simp only [Option.map_some']
      congr 1
      rw [hf0, min_eq_right hp1]
  · intro hp
    rw [if_pos (le_min le_rfl hp)]
    simp

/-- Witness for C4: default config, `ref = 16`, `load = 20`, ramp begun at
`rs = 2` with `d = 5` and `f0 = 5/4`, queried at `now = 4` (`p = 2/5`). -/
theorem C4_ramp_linearity_witness :
    (0 : ℚ) < 16 ∧
    (update_oa_state defaultConfig 20 16 ⟨0, some 2, 5/4, some 5⟩ 1 4).map Prod.fst =
      some (5/4 - (5/4 - 1) * ((4 - 2) / 5)) :=
  ⟨by norm_num,
   (C4_ramp_linearity (by norm_num) (by norm_num) rfl (by norm_num) rfl rfl
      (by norm_num) rfl).1 (by norm_num) (by norm_num)⟩

/-- The RAMPING branch with `ramp_start` present but `ramp_dur` absent: the
source raises `TypeError` (modelled as `none`). -/
theorem update_oa_state_ramp_nodur {cfg : Config} {load ref : ℚ} {st : OAState}
    {dt now rs : ℚ} (h0 : 0 < ref) (h1 : ref < load)
    (h2 : st.oa - rate_consume_per_min cfg (load / ref) * dt ≤ 0)
    (hrs : st.ramp_start = some rs) (hrd : st.ramp_dur = none) :
    update_oa_state cfg load ref st dt now = none := by
  have hmax : max 0 (st.oa - rate_consume_per_min cfg (load / ref) * dt) = 0 :=
    max_eq_left h2
  simp only [update_oa_state, if_neg (not_le.mpr h0), if_neg (not_le.mpr h1),
    hmax, lt_irrefl, if_false, hrs, hrd, if_neg (Option.some_ne_none rs)]

/-- The RAMPING branch with a stored zero `ramp_dur`: the source raises
`ZeroDivisionError` (modelled as `none`). -/
theorem update_oa_state_ramp_zero_dur {cfg : Config} {load ref : ℚ} {st : OAState}
    {dt now rs : ℚ} (h0 : 0 < ref) (h1 : ref < load)
    (h2 : st.oa - rate_consume_per_min cfg (load / ref) * dt ≤ 0)
    (hrs : st.ramp_start = some rs) (hrd : st.ramp_dur = some 0) :
    update_oa_state cfg load ref st dt now = none := by
  have hmax : max 0 (st.oa - rate_consume_per_min cfg (load / ref) * dt) = 0 :=
    max_eq_left h2
  simp only [update_oa_state, if_neg (not_le.mpr h0), if_neg (not_le.mpr h1),
    hmax, lt_irrefl, if_false, hrs, hrd, if_neg (Option.some_ne_none rs), if_pos rfl,
    ite_true]

/-- Master case analysis: every successful `update_oa_state` call falls in one
of five shapes — non-positive reference, recovery, accepting, ramp entry, or
ramp continuation. -/
theorem update_oa_state_cases {cfg : Config} {load ref : ℚ} {st : OAState}
    {dt now f : ℚ} {st2 : OAState}
    (h : update_oa_state cfg load ref st dt now = some (f, st2)) :
    (ref ≤ 0 ∧ f = 1 ∧ st2 = st) ∨
    (0 < ref ∧ load ≤ ref ∧ f = max 1 (load / ref) ∧
      st2 = { oa := min 100 (st.oa + rate_rise_per_min cfg (max 0 (min 1 (load / ref))) * dt),
              ramp_start := none, init_factor := st.init_factor, ramp_dur := st.ramp_dur }) ∨
    (0 < ref ∧ ref < load ∧ 0 < st.oa - rate_consume_per_min cfg (load / ref) * dt ∧
      f = load / ref ∧
      st2 = { oa := max 0 (st.oa - rate_consume_per_min cfg (load / ref) * dt),
              ramp_start := none, init_factor := st.init_factor, ramp_dur := st.ramp_dur }) ∨
    (0 < ref ∧ ref < load ∧ st.oa - rate_consume_per_min cfg (load / ref) * dt ≤ 0 ∧
      st.ramp_start = none ∧ (calculate_oa_timing cfg (load / ref)).2 ≠ 0 ∧
      f = load / ref ∧
      st2 = { oa := 0, ramp_start := some now, init_factor := load / ref,
              ramp_dur := some (calculate_oa_timing cfg (load / ref)).2 }) ∨
    (∃ rs rd, 0 < ref ∧ ref < load ∧
      st.oa - rate_consume_per_min cfg (load / ref) * dt ≤ 0 ∧
      st.ramp_start = some rs ∧ st.ramp_dur = some rd ∧ rd ≠ 0 ∧
      st2 = { oa := 0, ramp_start := some rs, init_factor := st.init_factor,
              ramp_dur := some rd } ∧
      ((1 ≤ min 1 ((now - rs) / rd) ∧ f = 1) ∨
       (¬ 1 ≤ min 1 ((now - rs) / rd) ∧
         f = st.init_factor - (st.init_factor - 1) * min 1 ((now - rs) / rd)))) := by
  by_cases h0 : ref ≤ 0
  · left
    rw [update_oa_state_nonpos_ref h0] at h
    simp only [Option.some.injEq, Prod.mk.injEq] at h
    exact ⟨h0, h.1.symm, h.2.symm⟩
  push_neg at h0
  by_cases h1 : load ≤ ref
  · right; left
    rw [update_oa_state_recovery h0 h1] at h
    simp only [Option.some.injEq, Prod.mk.injEq] at h
    exact ⟨h0, h1, h.1.symm, h.2.symm⟩
  push_neg at h1
  by_cases h2 : 0 < st.oa - rate_consume_per_min cfg (load / ref) * dt
  · right; right; left
    rw [update_oa_state_accept h0 h1 h2] at h
    simp only [Option.some.injEq, Prod.mk.injEq] at h
    exact ⟨h0, h1, h2, h.1.symm, h.2.symm⟩
  push_neg at h2
  rcases hrs : st.ramp_start with _ | rs
  · right; right; right; left
    rw [update_oa_state_ramp_entry h0 h1 h2 hrs] at h
    by_cases hT : (calculate_oa_timing cfg (load / ref)).2 = 0
    · rw [if_pos hT] at h
      exact absurd h (by simp)
    · rw [if_neg hT] at h
      simp only [Option.some.injEq, Prod.mk.injEq] at h
      exact ⟨h0, h1, h2, rfl, hT, h.1.symm, h.2.symm⟩
  · right; right; right; right
    rcases hrd : st.ramp_dur with _ | rd
    · rw [update_oa_state_ramp_nodur h0 h1 h2 hrs hrd] at h
      exact absurd h (by simp)
    · by_cases hrd0 : rd = 0
      · subst hrd0
        rw [update_oa_state_ramp_zero_dur h0 h1 h2 hrs hrd] at h
        exact absurd h (by simp)
      · refine ⟨rs, rd, h0, h1, h2, rfl, rfl, hrd0, ?_⟩
        rw [update_oa_state_ramp_cont h0 h1 h2 hrs hrd hrd0] at h
        by_cases hge : 1 ≤ min 1 ((now - rs) / rd)
        · rw [if_pos hge] at h
          simp only [Option.some.injEq, Prod.mk.injEq] at h
          exact ⟨h.2.symm, Or.inl ⟨hge, h.1.symm⟩⟩
        · rw [if_neg hge] at h
          simp only [Option.some.injEq, Prod.mk.injEq] at h
          exact ⟨h.2.symm, Or.inr ⟨hge, h.1.symm⟩⟩

/-! ## Invariant preservation -/

/-- One successful OA update preserves `OAInv` when time moves forward. -/
theorem update_oa_state_OAInv {cfg : Config} {load ref dt now f : ℚ}
    {st st2 : OAState} (hinv : OAInv st) (hdt : 0 ≤ dt)
    (h : update_oa_state cfg load ref st dt now = some (f, st2)) : OAInv st2 := by
  obtain ⟨ha, hb, hc, hd1, he1⟩ := hinv
  rcases update_oa_state_cases h with
    ⟨_, _, hst⟩ | ⟨h0, h1, _, hst⟩ | ⟨h0, h1, h2, _, hst⟩ |
    ⟨h0, h1, h2, hrs, hT, _, hst⟩ | ⟨rs, rd, h0, h1, h2, hrs, hrd, hrd0, hst, _⟩
  · rw [hst]; exact ⟨ha, hb, hc, hd1, he1⟩
  · subst hst
    have hrise := rate_rise_per_min_pos cfg (max 0 (min 1 (load / ref)))
    refine ⟨?_, ?_, hc, ?_, ?_⟩
    · exact le_min (by norm_num)
        (by nlinarith [mul_nonneg hrise.le hdt])
    · exact min_le_left _ _
    · intro hn; exact absurd rfl hn
    · intro hn; exact absurd rfl hn
  · subst hst
    have hcons := rate_consume_per_min_pos cfg (load / ref)
    refine ⟨le_max_left _ _, ?_, hc, ?_, ?_⟩
    · exact max_le (by norm_num)
        (by nlinarith [mul_nonneg hcons.le hdt])
    · intro hn; exact absurd rfl hn
    · intro hn; exact absurd rfl hn
  · subst hst
    exact ⟨le_refl 0, by norm_num, (one_le_div h0).mpr h1.le,
      fun _ => rfl, fun _ => by simp⟩
  · subst hst
    exact ⟨le_refl 0, by norm_num, hc, fun _ => rfl, fun _ => by simp⟩

/-- One successful OA update preserves positivity of the stored ramp duration
when the configured ramp durations are positive. -/
theorem update_oa_state_OAInvRamp {cfg : Config} {load ref dt now f : ℚ}
    {st st2 : OAState} (h5 : 0 < cfg.ramp_5) (h20 : 0 < cfg.ramp_20)
    (hinv : OAInvRamp st)
    (h : update_oa_state cfg load ref st dt now = some (f, st2)) :
    OAInvRamp st2 := by
  rcases update_oa_state_cases h with
    ⟨_, _, hst⟩ | ⟨h0, h1, _, hst⟩ | ⟨h0, h1, h2, _, hst⟩ |
    ⟨h0, h1, h2, hrs, hT, _, hst⟩ | ⟨rs, rd, h0, h1, h2, hrs, hrd, hrd0, hst, _⟩
  · rw [hst]; exact hinv
  · subst hst; intro d hd; exact hinv d hd
  · subst hst; intro d hd; exact hinv d hd
  · subst hst; intro d hd
    simp only [Option.some.injEq] at hd
    subst hd
    exact T_ramp_pos h5 h20 _
  · subst hst; intro d hd
    simp only [Option.some.injEq] at hd
    subst hd
    exact hinv rd hrd

/-- The unit loop preserves `OAInv` of every produced record and returns one
record per processed pair. -/
theorem run_units_OAInv {cfg : Config} {pairs : List (ℚ × OAState)}
    {dt now : ℚ} {sts : List OAState} {oas pres : List ℚ}
    (hdt : 0 ≤ dt) (hinv : ∀ p ∈ pairs, OAInv p.2)
    (h : run_units cfg pairs dt now = some (sts, oas, pres)) :
    (∀ st ∈ sts, OAInv st) ∧ sts.length = pairs.length := by
  induction pairs generalizing sts oas pres with
  | nil =>
    simp only [run_units, Option.some.injEq, Prod.mk.injEq] at h
    obtain ⟨h1, _, _⟩ := h
    subst h1
    exact ⟨by simp, rfl⟩
  | cons hd tl ih =>
    obtain ⟨load, st⟩ := hd
    rcases hu : update_oa_state cfg load cfg.max_individual_load st dt now with _ | ⟨f, st2⟩
    · simp only [run_units, hu] at h
      exact Option.noConfusion h
    · rcases hr : run_units cfg tl dt now with _ | ⟨sts', oas', pres'⟩
      · simp only [run_units, hu, hr] at h
        exact Option.noConfusion h
      · simp only [run_units, hu, hr, Option.some.injEq, Prod.mk.injEq] at h
        obtain ⟨h1, _, _⟩ := h
        subst h1
        have hst2 : OAInv st2 :=
          update_oa_state_OAInv (hinv (load, st) (by simp)) hdt hu
        have htl := ih (fun p hp => hinv p (List.mem_cons_of_mem _ hp)) hr
        refine ⟨?_, by simp [htl.2]⟩
        intro x hx
        rcases List.mem_cons.mp hx with hx | hx
        · rw [hx]; exact hst2
        · exact htl.1 x hx

/-- The unit loop preserves ramp-duration positivity. -/
theorem run_units_OAInvRamp {cfg : Config} {pairs : List (ℚ × OAState)}
    {dt now : ℚ} {sts : List OAState} {oas pres : List ℚ}
    (h5 : 0 < cfg.ramp_5) (h20 : 0 < cfg.ramp_20)
    (hinv : ∀ p ∈ pairs, OAInvRamp p.2)
    (h : run_units cfg pairs dt now = some (sts, oas, pres)) :
    ∀ st ∈ sts, OAInvRamp st := by
  induction pairs generalizing sts oas pres with
  | nil =>
    simp only [run_units, Option.some.injEq, Prod.mk.injEq] at h
    obtain ⟨h1, _, _⟩ := h
    subst h1
    simp
  | cons hd tl ih =>
    obtain ⟨load, st⟩ := hd
    rcases hu : update_oa_state cfg load cfg.max_individual_load st dt now with _ | ⟨f, st2⟩
    · simp only [run_units, hu] at h
      exact Option.noConfusion h
    · rcases hr : run_units cfg tl dt now with _ | ⟨sts', oas', pres'⟩
      · simp only [run_units, hu, hr] at h
        exact Option.noConfusion h
      · simp only [run_units, hu, hr, Option.some.injEq, Prod.mk.injEq] at h
        obtain ⟨h1, _, _⟩ := h
        subst h1
        intro x hx
        rcases List.mem_cons.mp hx with hx | hx
        · rw [hx]
          exact update_oa_state_OAInvRamp h5 h20 (hinv (load, st) (by simp)) hu
        · exact ih (fun p hp => hinv p (List.mem_cons_of_mem _ hp)) hr x hx

/-- One successful tick preserves the engine invariant when the sampled clock
does not run backwards. -/
theorem run_distribution_EngineInv {cfg : Config} {s s2 : EngineState}
    {L : ℚ} {Lu : List ℚ} {now : ℚ} {r : DistributionResult}
    (hinv : EngineInv s) (hle : s.last_update_time ≤ now)
    (h : run_distribution cfg s L Lu now = some (s2, r)) : EngineInv s2 := by
  have hdt : 0 ≤ now - s.last_update_time := sub_nonneg.mpr hle
  rcases hc : update_oa_state cfg L cfg.max_combined_load s.combined
      (now - s.last_update_time) now with _ | ⟨cf, c2⟩
  · simp only [run_distribution, hc] at h
    exact Option.noConfusion h
  rcases hu : run_units cfg (Lu.zip s.consumers) (now - s.last_update_time) now
      with _ | ⟨sts, oas, pres⟩
  · simp only [run_distribution, hc, hu] at h
    exact Option.noConfusion h
  simp only [run_distribution, hc, hu, Option.some.injEq, Prod.mk.injEq] at h
  obtain ⟨h1, _⟩ := h
  subst h1
  have hzip : ∀ p ∈ Lu.zip s.consumers, OAInv p.2 := by
    intro p hp
    exact hinv.2.1 p.2 (List.of_mem_zip hp).2
  have hunits := run_units_OAInv hdt hzip hu
  refine ⟨update_oa_state_OAInv hinv.1 hdt hc, ?_, ?_⟩
  · intro st hst
    rcases List.mem_append.mp hst with hst | hst
    · exact hunits.1 st hst
    · exact hinv.2.1 st (List.drop_subset _ _ hst)
  · have hlen := hunits.2
    have hz : (Lu.zip s.consumers).length = min Lu.length s.consumers.length :=
      List.length_zip _ _
    have hc4 := hinv.2.2
    simp only [List.length_append, List.length_drop, hlen, hz, hc4]
    omega

/-- Every reachable engine state satisfies the engine invariant. -/
theorem reachable_EngineInv {cfg : Config} {s : EngineState}
    (h : Reachable cfg s) : EngineInv s := by
  induction h with
  | init t0 =>
    have hOA : OAInv initOAState :=
      ⟨by norm_num [initOAState], by norm_num [initOAState], by norm_num [initOAState],
       fun hn => absurd rfl hn, fun hn => absurd rfl hn⟩
    refine ⟨hOA, ?_, by simp [initial_state]⟩
    intro st hst
    have hrep : st = initOAState :=
      List.eq_of_mem_replicate (by simpa [initial_state] using hst)
    rw [hrep]; exact hOA
  | step hR hle hrun ih => exact run_distribution_EngineInv ih hle hrun

/-- One successful tick preserves ramp-duration positivity of all records,
given positive configured ramp durations. -/
theorem run_distribution_EngineInvRamp {cfg : Config} {s s2 : EngineState}
    {L : ℚ} {Lu : List ℚ} {now : ℚ} {r : DistributionResult}
    (h5 : 0 < cfg.ramp_5) (h20 : 0 < cfg.ramp_20)
    (hinv : OAInvRamp s.combined ∧ ∀ st ∈ s.consumers, OAInvRamp st)
    (h : run_distribution cfg s L Lu now = some (s2, r)) :
    OAInvRamp s2.combined ∧ ∀ st ∈ s2.consumers, OAInvRamp st := by
  rcases hc : update_oa_state cfg L cfg.max_combined_load s.combined
      (now - s.last_update_time) now with _ | ⟨cf, c2⟩
  · simp only [run_distribution, hc] at h
    exact Option.noConfusion h
  rcases hu : run_units cfg (Lu.zip s.consumers) (now - s.last_update_time) now
      with _ | ⟨sts, oas, pres⟩
  · simp only [run_distribution, hc, hu] at h
    exact Option.noConfusion h
  simp only [run_distribution, hc, hu, Option.some.injEq, Prod.mk.injEq] at h
  obtain ⟨h1, _⟩ := h
  subst h1
  have hzip : ∀ p ∈ Lu.zip s.consumers, OAInvRamp p.2 := by
    intro p hp
    exact hinv.2 p.2 (List.of_mem_zip hp).2
  refine ⟨update_oa_state_OAInvRamp h5 h20 hinv.1 hc, ?_⟩
  intro st hst
  rcases List.mem_append.mp hst with hst | hst
  · exact run_units_OAInvRamp h5 h20 hzip hu st hst
  · exact hinv.2 st (List.drop_subset _ _ hst)

/-- Every reachable engine state has positive stored ramp durations, given
positive configured ramp durations. -/
theorem reachable_EngineInvRamp {cfg : Config} {s : EngineState}
    (h5 : 0 < cfg.ramp_5) (h20 : 0 < cfg.ramp_20) (h : Reachable cfg s) :
    OAInvRamp s.combined ∧ ∀ st ∈ s.consumers, OAInvRamp st := by
  induction h with
  | init t0 =>
    constructor
    · intro d hd; exact Option.noConfusion hd
    · intro st hst
      have hrep : st = initOAState :=
        List.eq_of_mem_replicate (by simpa [initial_state] using hst)
      rw [hrep]
      intro d hd; exact Option.noConfusion hd
  | step hR hle hrun ih => exact run_distribution_EngineInvRamp h5 h20 ih hrun

/-! ## Totality of the per-tick computation -/

/-- Under positive configured ramp durations and sane ramp bookkeeping, one OA
update always returns. -/
theorem update_oa_state_total {cfg : Config} {load ref dt now : ℚ} {st : OAState}
    (h5 : 0 < cfg.ramp_5) (h20 : 0 < cfg.ramp_20)
    (hsd : st.ramp_start ≠ none → st.ramp_dur ≠ none)
    (hdp : OAInvRamp st) :
    (update_oa_state cfg load ref st dt now).isSome := by
  by_cases h0 : ref ≤ 0
  · rw [update_oa_state_nonpos_ref h0]; rfl
  push_neg at h0
  by_cases h1 : load ≤ ref
  · rw [update_oa_state_recovery h0 h1]; rfl
  push_neg at h1
  by_cases h2 : 0 < st.oa - rate_consume_per_min cfg (load / ref) * dt
  · rw [update_oa_state_accept h0 h1 h2]; rfl
  push_neg at h2
  rcases hrs : st.ramp_start with _ | rs
  · rw [update_oa_state_ramp_entry h0 h1 h2 hrs,
      if_neg (ne_of_gt (T_ramp_pos h5 h20 (load / ref)))]
    rfl
  · rcases hrd : st.ramp_dur with _ | rd
    · exact absurd hrd (hsd (by rw [hrs]; exact Option.some_ne_none rs))
    · have hrdpos := hdp rd hrd
      rw [update_oa_state_ramp_cont h0 h1 h2 hrs hrd (ne_of_gt hrdpos)]
      split_ifs <;> rfl

/-- The unit loop always returns under the same conditions. -/
theorem run_units_total {cfg : Config} {pairs : List (ℚ × OAState)} {dt now : ℚ}
    (h5 : 0 < cfg.ramp_5) (h20 : 0 < cfg.ramp_20)
    (hinv : ∀ p ∈ pairs, (p.2.ramp_start ≠ none → p.2.ramp_dur ≠ none) ∧
      OAInvRamp p.2) :
    (run_units cfg pairs dt now).isSome := by
  induction pairs with
  | nil => rfl
  | cons hd tl ih =>
    obtain ⟨load, st⟩ := hd
    have h1 := @update_oa_state_total cfg load cfg.max_individual_load dt now st
      h5 h20 (hinv (load, st) (by simp)).1 (hinv (load, st) (by simp)).2
    rcases Option.isSome_iff_exists.mp h1 with ⟨⟨f, st2⟩, hu⟩
    rcases Option.isSome_iff_exists.mp
        (ih (fun p hp => hinv p (List.mem_cons_of_mem _ hp))) with ⟨⟨sts, oas, pres⟩, hr⟩
    simp only [run_units, hu, hr]
    rfl

/-- The whole tick always returns under positive configured ramp durations
and the engine invariants. -/
theorem run_distribution_total {cfg : Config} {s : EngineState}
    (h5 : 0 < cfg.ramp_5) (h20 : 0 < cfg.ramp_20)
    (hinv : EngineInv s)
    (hramp : OAInvRamp s.combined ∧ ∀ st ∈ s.consumers, OAInvRamp st)
    (L : ℚ) (Lu : List ℚ) (now : ℚ) :
    (run_distribution cfg s L Lu now).isSome := by
  have hc := @update_oa_state_total cfg L cfg.max_combined_load
    (now - s.last_update_time) now s.combined h5 h20 hinv.1.2.2.2.2 hramp.1
  rcases Option.isSome_iff_exists.mp hc with ⟨⟨cf, c2⟩, hce⟩
  have hu : (run_units cfg (Lu.zip s.consumers) (now - s.last_update_time) now).isSome := by
    apply run_units_total h5 h20
    intro p hp
    have hmem := (List.of_mem_zip hp).2
    exact ⟨(hinv.2.1 p.2 hmem).2.2.2.2, hramp.2 p.2 hmem⟩
  rcases Option.isSome_iff_exists.mp hu with ⟨⟨sts, oas, pres⟩, hue⟩
  simp only [run_distribution, hce, hue]
  rfl

/-! ## Claim theorems -/

/-- C3: for every reachable engine state — reachability starts at the
initial state, whose five OA percents are all 100, and steps by arbitrary
successful ticks with nonnegative elapsed time and arbitrary loads — each of
the five `oa_percent` values (combined and units 1..4) lies in `[0, 100]`. -/
theorem C3_oa_percent_bounds {cfg : Config} {s : EngineState}
    (h : Reachable cfg s) :
    (0 ≤ s.combined.oa ∧ s.combined.oa ≤ 100) ∧
    ∀ st ∈ s.consumers, 0 ≤ st.oa ∧ st.oa ≤ 100 := by
  obtain ⟨hc, hu, _⟩ := reachable_EngineInv h
  exact ⟨⟨hc.1, hc.2.1⟩, fun st hst => ⟨(hu st hst).1, (hu st hst).2.1⟩⟩

/-- Witness for C3 at the initial engine state (all OA percents 100). -/
theorem C3_oa_percent_bounds_witness :
    (0 ≤ (initial_state 0).combined.oa ∧ (initial_state 0).combined.oa ≤ 100) ∧
    ∀ st ∈ (initial_state 0).consumers, 0 ≤ st.oa ∧ st.oa ≤ 100 :=
  @C3_oa_percent_bounds defaultConfig (initial_state 0) (Reachable.init 0)

/-- C9 (implicit): for every reachable OA record (the combined record or
any unit record of a reachable engine state) and all inputs on which the OA
update returns, the returned limit factor is at least 1; consequently, for a
nonnegative reference limit, the OA cap `ref × factor` is never below `ref`,
and a load at or below `ref` passes the pre-cap `min load (ref × factor)`
untouched. -/
theorem C9_limit_factor_ge_one {cfg : Config} {s : EngineState} {st st2 : OAState}
    {load ref dt now f : ℚ}
    (hR : Reachable cfg s) (hst : st = s.combined ∨ st ∈ s.consumers)
    (h : update_oa_state cfg load ref st dt now = some (f, st2)) :
    1 ≤ f ∧ (0 ≤ ref → ref ≤ ref * f ∧ (load ≤ ref → min load (ref * f) = load)) := by
  have hinit : 1 ≤ st.init_factor := by
    obtain ⟨hc, hu, _⟩ := reachable_EngineInv hR
    rcases hst with h1 | h1
    · rw [h1]; exact hc.2.2.1
    · exact (hu st h1).2.2.1
  have hf : 1 ≤ f := by
    rcases update_oa_state_cases h with
      ⟨_, hfe, _⟩ | ⟨h0, h1, hfe, _⟩ | ⟨h0, h1, h2, hfe, _⟩ |
      ⟨h0, h1, h2, hrs, hT, hfe, _⟩ | ⟨rs, rd, h0, h1, h2, hrs, hrd, hrd0, _, hor⟩
    · rw [hfe]
    · rw [hfe]; exact le_max_left _ _
    · rw [hfe]; exact (one_le_div h0).mpr h1.le
    · rw [hfe]; exact (one_le_div h0).mpr h1.le
    · rcases hor with ⟨_, hfe⟩ | ⟨hge, hfe⟩
      · rw [hfe]
      · rw [hfe]
        have hp : min 1 ((now - rs) / rd) ≤ 1 := min_le_left _ _
        nlinarith [mul_nonneg (sub_nonneg.mpr hinit) (sub_nonneg.mpr hp)]
  have hcap : 0 ≤ ref → ref ≤ ref * f := fun href => by
    calc ref = ref * 1 := (mul_one ref).symm
      _ ≤ ref * f := mul_le_mul_of_nonneg_left hf href
  exact ⟨hf, fun href => ⟨hcap href, fun hload => min_eq_left (hload.trans (hcap href))⟩⟩

/-- Witness for C9: initial combined record, `load = 5` above `ref = 4`
(ACCEPTING, factor 5/4). -/
theorem C9_limit_factor_ge_one_witness :
    1 ≤ (5/4 : ℚ) ∧ ((0:ℚ) ≤ 4 → (4:ℚ) ≤ 4 * (5/4) ∧ ((5:ℚ) ≤ 4 → min 5 ((4:ℚ) * (5/4)) = 5)) :=
  @C9_limit_factor_ge_one defaultConfig (initial_state 0) ((initial_state 0).combined)
    ⟨100, none, 1, none⟩ 5 4 0 0 (5/4) (Reachable.init 0) (Or.inl rfl)
    (by norm_num [update_oa_state, initial_state, initOAState, rate_consume_per_min,
      calculate_oa_timing, interpolate_value, defaultConfig])

/-- C1 (amended): all divisions by `reference_limit`, `delay`,
`recovery_minutes` and `demand_total` are guarded with defined fallbacks, but
the division by `ramp_dur` at the ramp-progress computation (line 158) is
not; it cannot divide by zero — and `run_distribution` therefore returns a
result for all float inputs and every reachable engine state — provided the
configured ramp durations `ramp_5` and `ramp_20` are positive. -/
theorem C1_no_raise_amended {cfg : Config} {s : EngineState}
    (h5 : 0 < cfg.ramp_5) (h20 : 0 < cfg.ramp_20) (hR : Reachable cfg s)
    (L : ℚ) (Lu : List ℚ) (now : ℚ) :
    (run_distribution cfg s L Lu now).isSome :=
  run_distribution_total h5 h20 (reachable_EngineInv hR)
    (reachable_EngineInvRamp h5 h20 hR) L Lu now

/-- Witness for C1 (amended) at the default configuration, the initial state
and an overloaded tick. -/
theorem C1_no_raise_amended_witness :
    (run_distribution defaultConfig (initial_state 0) 17 [4, 4, 4, 4] 1).isSome :=
  C1_no_raise_amended (by norm_num [defaultConfig]) (by norm_num [defaultConfig])
    (Reachable.init 0) 17 [4, 4, 4, 4] 1

/-- C1 counterexample: with the well-typed numeric configuration
`ramp_5 = ramp_20 = 0` (and one-minute delays), the very first overloaded
tick reaches the unguarded division `time_elapsed_min / state['ramp_dur']`
with a zero divisor: the source raises `ZeroDivisionError` instead of
returning a result, falsifying the claim that every division (including the
one by `ramp_duration`) is pre-guarded. -/
theorem C1_cex_ramp_division_raises :
    run_distribution ⟨16, 4, 1, 1, 0, 0, 20, 60⟩ (initial_state 0) 17 [4, 4, 4, 4] 2 = none := by
  norm_num [run_distribution, update_oa_state, run_units, final_limits_calc,
    calculate_oa_timing, calculate_recovery_time, interpolate_value, initial_state,
    initOAState, pyRound2, roundHalfEven, NUM_CONSUMERS, Int.fract,
    rate_rise_per_min, rate_consume_per_min]

/-- C6 (amended): when a degenerate tuning duration makes the derived
time non-positive, the update falls back to a rate of 100 percentage points
per minute, not to an instantaneous jump: in RECOVERING with
`recovery_minutes ≤ 0`, `oa_percent` rises by `100·dt` (capped at 100); in
ACCEPTING with `delay ≤ 0`, `oa_percent` falls by `100·dt` (floored at 0).
The extreme is reached within one minute of cumulative elapsed time, not
within the same tick. -/
theorem C6_degenerate_rate_amended {cfg : Config} {load ref : ℚ} {st : OAState}
    {dt now : ℚ} (href : 0 < ref) :
    (load ≤ ref → calculate_recovery_time cfg (max 0 (min 1 (load / ref))) ≤ 0 →
      (update_oa_state cfg load ref st dt now).map (fun p => p.2.oa) =
        some (min 100 (st.oa + 100 * dt))) ∧
    (ref < load → (calculate_oa_timing cfg (load / ref)).1 ≤ 0 →
      ∀ f st2, update_oa_state cfg load ref st dt now = some (f, st2) →
        st2.oa = max 0 (st.oa - 100 * dt)) := by
  constructor
  · intro h1 hrec
    rw [update_oa_state_recovery href h1]
    simp only [Option.map_some']
    congr 2
    unfold rate_rise_per_min
    rw [if_neg (not_lt.mpr hrec)]
  · intro h1 hdel f st2 h
    have hrate : rate_consume_per_min cfg (load / ref) = 100 := by
      unfold rate_consume_per_min
      rw [if_neg (not_lt.mpr hdel)]
    rcases update_oa_state_cases h with
      ⟨hr, _, _⟩ | ⟨h0, hle, _, _⟩ | ⟨h0, _, h2, _, hst⟩ |
      ⟨h0, _, h2, hrs, hT, _, hst⟩ | ⟨rs, rd, h0, _, h2, hrs, hrd, hrd0, hst, _⟩
    · exact absurd hr (not_le.mpr href)
    · exact absurd hle (not_le.mpr h1)
    · rw [hst]
      simp [hrate]
    · rw [hst]
      rw [hrate] at h2
      simp [max_eq_left h2]
    · rw [hst]
      rw [hrate] at h2
      simp [max_eq_left h2]

/-- Witness for C6 (amended): zero recovery durations, `load = 2 ≤ ref = 4`,
`oa = 50`, `dt = 1/100` — the OA percent rises to 51, by `100·dt = 1`. -/
theorem C6_degenerate_rate_amended_witness :
    ((2:ℚ) ≤ 4) ∧
    (update_oa_state ⟨16, 4, 10, 2, 10, 5, 0, 0⟩ 2 4 ⟨50, none, 1, none⟩ (1/100) 0).map
      (fun p => p.2.oa) = some (min 100 (50 + 100 * (1/100))) :=
  ⟨by norm_num,
   (@C6_degenerate_rate_amended ⟨16, 4, 10, 2, 10, 5, 0, 0⟩ 2 4 ⟨50, none, 1, none⟩
      (1/100) 0 (by norm_num)).1 (by norm_num)
      (by norm_num [calculate_recovery_time, interpolate_value])⟩

/-- C6 counterexample: with recovery durations 0 (so
`recovery_minutes ≤ 0`) and a small tick `dt = 1/100` min, a RECOVERING
update takes `oa_percent` from 50 to 51 — not "instantly to 100" as claimed. -/
theorem C6_cex_not_instant :
    calculate_recovery_time ⟨16, 4, 10, 2, 10, 5, 0, 0⟩ (max 0 (min 1 ((2:ℚ) / 4))) ≤ 0 ∧
    (update_oa_state ⟨16, 4, 10, 2, 10, 5, 0, 0⟩ 2 4 ⟨50, none, 1, none⟩ (1/100) 0).map
      (fun p => p.2.oa) = some 51 ∧ (51 : ℚ) ≠ 100 := by
  refine ⟨by norm_num [calculate_recovery_time, interpolate_value], ?_, by norm_num⟩
  norm_num [update_oa_state, calculate_recovery_time, interpolate_value,
    rate_rise_per_min]

/-- C7 (amended): a tick executed with zero elapsed time leaves every
`oa_percent` unchanged (given the `[0,100]` invariant), and leaves
`ramp_start` and `init_factor` unchanged as well — except at the two
ramp-bookkeeping boundaries: a tick with the load at/below the limit clears
`ramp_start`, and a ramp-entry tick (OA exhausted, no active ramp, load above
the limit) sets `ramp_start` and captures `init_factor`. -/
theorem C7_zero_dt_amended {cfg : Config} {load ref now f : ℚ} {st st2 : OAState}
    (hinv : OAInv st)
    (h : update_oa_state cfg load ref st 0 now = some (f, st2)) :
    st2.oa = st.oa ∧
    (ref ≤ 0 → st2 = st) ∧
    (0 < ref → load ≤ ref → st2 = { st with ramp_start := none }) ∧
    (0 < ref → ref < load → 0 < st.oa → st2 = st) ∧
    (0 < ref → ref < load → st.oa = 0 →
      ∀ rs, st.ramp_start = some rs → st2 = st) ∧
    (0 < ref → ref < load → st.oa = 0 → st.ramp_start = none →
      st2.ramp_start = some now ∧ st2.init_factor = load / ref ∧ st2.oa = 0) := by
  obtain ⟨hoa0, hoa100, hinit1, hrsoa, hrsdur⟩ := hinv
  rcases update_oa_state_cases h with
    ⟨href, hfe, hst⟩ | ⟨h0, h1, hfe, hst⟩ | ⟨h0, h1, h2, hfe, hst⟩ |
    ⟨h0, h1, h2, hrs, hT, hfe, hst⟩ | ⟨rs, rd, h0, h1, h2, hrs, hrd, hrd0, hst, hor⟩
  · subst hst
    refine ⟨rfl, fun _ => rfl, ?_, ?_, ?_, ?_⟩
    · intro hp _; exact absurd href (not_le.mpr hp)
    · intro hp _ _; exact absurd href (not_le.mpr hp)
    · intro hp _ _ _ _; exact absurd href (not_le.mpr hp)
    · intro hp _ _ _; exact absurd href (not_le.mpr hp)
  · subst hst
    refine ⟨by simp [mul_zero, add_zero, min_eq_right hoa100], ?_, ?_, ?_, ?_, ?_⟩
    · intro hp; exact absurd hp (not_le.mpr h0)
    · intro _ _
      obtain ⟨soa, srs, sif, srd⟩ := st
      simp only at hoa100
      simp [mul_zero, add_zero, min_eq_right hoa100]
    · intro _ hl _; exact absurd h1 (not_le.mpr hl)
    · intro _ hl _ _ _; exact absurd h1 (not_le.mpr hl)
    · intro _ hl _ _; exact absurd h1 (not_le.mpr hl)
  · have h2' : 0 < st.oa := by
      have h2c := h2
      rwa [mul_zero, sub_zero] at h2c
    have hrsn : st.ramp_start = none := by
      rcases hh : st.ramp_start with _ | rs
      · rfl
      · have hz := hrsoa (by rw [hh]; exact Option.some_ne_none rs)
        rw [hz] at h2'
        exact absurd h2' (lt_irrefl 0)
    subst hst
    refine ⟨by simp [mul_zero, sub_zero, max_eq_right hoa0], ?_, ?_, ?_, ?_, ?_⟩
    · intro hp; exact absurd hp (not_le.mpr h0)
    · intro _ hle; exact absurd hle (not_le.mpr h1)
    · intro _ _ _
      obtain ⟨soa, srs, sif, srd⟩ := st
      simp only at hoa0 hrsn
      simp [mul_zero, sub_zero, max_eq_right hoa0, hrsn]
    · intro _ _ hz _ _
      rw [hz] at h2'
      exact absurd h2' (lt_irrefl 0)
    · intro _ _ hz _
      rw [hz] at h2'
      exact absurd h2' (lt_irrefl 0)
  · have hz : st.oa = 0 := by
      have h2c := h2
      rw [mul_zero, sub_zero] at h2c
      exact le_antisymm h2c hoa0
    subst hst
    refine ⟨hz.symm, ?_, ?_, ?_, ?_, ?_⟩
    · intro hp; exact absurd hp (not_le.mpr h0)
    · intro _ hle; exact absurd hle (not_le.mpr h1)
    · intro _ _ hp
      rw [hz] at hp
      exact absurd hp (lt_irrefl 0)
    · intro _ _ _ rs hrs'
      rw [hrs'] at hrs
      exact absurd hrs (Option.some_ne_none rs)
    · intro _ _ _ _
      exact ⟨rfl, rfl, rfl⟩
  · have hz : st.oa = 0 := by
      have h2c := h2
      rw [mul_zero, sub_zero] at h2c
      exact le_antisymm h2c hoa0
    subst hst
    refine ⟨hz.symm, ?_, ?_, ?_, ?_, ?_⟩
    · intro hp; exact absurd hp (not_le.mpr h0)
    · intro _ hle; exact absurd hle (not_le.mpr h1)
    · intro _ _ hp
      rw [hz] at hp
      exact absurd hp (lt_irrefl 0)
    · intro _ _ _ rs' hrs'
      obtain ⟨soa, srs, sif, srd⟩ := st
      simp only at hz hrs hrd
      simp [hz, hrs, hrd]
    · intro _ _ _ hn
      rw [hn] at hrs
      exact absurd hrs.symm (Option.some_ne_none rs)

/-- Witness for C7 (amended): a zero-elapsed-time RECOVERY update of the
initial OA record leaves its `oa_percent` at 100. -/
theorem C7_zero_dt_amended_witness :
    (⟨100, none, 1, none⟩ : OAState).oa = initOAState.oa :=
  (@C7_zero_dt_amended defaultConfig 10 16 5 1 initOAState ⟨100, none, 1, none⟩
    ⟨by norm_num [initOAState], by norm_num [initOAState], by norm_num [initOAState],
     fun hn => absurd rfl hn, fun hn => absurd rfl hn⟩
    (by norm_num [update_oa_state, rate_rise_per_min, calculate_recovery_time,
      interpolate_value, defaultConfig, initOAState])).1

set_option maxRecDepth 8000 in
/-- C7 counterexample: from the initial state, one overloaded tick of the
default configuration (`combined = 20 > 16`, `dt = 2`) drives the combined OA
to 0 and starts a ramp (`ramp_start = some 2`); a second tick at the *same*
instant (`now = 2 = last_update_time`, so `dt_minutes = 0`) with the load
back under the limit *clears* `ramp_start` — so a zero-elapsed-time tick does
not leave every piece of persistent OA state unchanged. -/
theorem C7_cex_zero_dt_changes_ramp_start :
    run_distribution defaultConfig (initial_state 0) 20 [4, 4, 4, 4] 2 =
      some (⟨⟨0, some 2, 5/4, some 5⟩,
             [⟨100, none, 1, none⟩, ⟨100, none, 1, none⟩,
              ⟨100, none, 1, none⟩, ⟨100, none, 1, none⟩], 2⟩,
            ⟨0, 20, 16, [100, 100, 100, 100], [4, 4, 4, 4], [4, 4, 4, 4]⟩) ∧
    (run_distribution defaultConfig
        ⟨⟨0, some 2, 5/4, some 5⟩,
         [⟨100, none, 1, none⟩, ⟨100, none, 1, none⟩,
          ⟨100, none, 1, none⟩, ⟨100, none, 1, none⟩], 2⟩
        10 [1, 1, 1, 1] 2).map (fun p => p.1.combined.ramp_start) = some none ∧
    some (2 : ℚ) ≠ (none : Option ℚ) := by
  refine ⟨?_, ?_, by simp⟩
  · norm_num [run_distribution, update_oa_state, run_units, final_limits_calc,
      calculate_oa_timing, calculate_recovery_time, interpolate_value, initial_state,
      initOAState, defaultConfig, pyRound2, roundHalfEven, NUM_CONSUMERS, Int.fract,
      rate_rise_per_min, rate_consume_per_min]
  · norm_num [run_distribution, update_oa_state, run_units, final_limits_calc,
      calculate_oa_timing, calculate_recovery_time, interpolate_value,
      initOAState, defaultConfig, pyRound2, roundHalfEven, NUM_CONSUMERS, Int.fract,
      rate_rise_per_min, rate_consume_per_min]

/-- C2 counterexample: the source `run_distribution` takes no time parameters (its
Python signature is `run_distribution(L_combined_actual, L_units_actual)`);
from equal engine states and equal load inputs, two different internal
`datetime.now()` samples — the explicit `now` of the embedding — produce
different results, so the tick is not a function of the engine state, the
loads and caller-supplied time values. -/
theorem C2_cex_internal_clock :
    run_distribution defaultConfig (initial_state 0) 17 [4, 4, 4, 4] 0 ≠
      run_distribution defaultConfig (initial_state 0) 17 [4, 4, 4, 4] 1 := by
  intro h
  have h2 := congrArg (fun o => o.map (fun p => p.2.combined_oa_percent)) h
  norm_num [run_distribution, update_oa_state, run_units, final_limits_calc,
    calculate_oa_timing, calculate_recovery_time, interpolate_value, initial_state,
    initOAState, defaultConfig, pyRound2, roundHalfEven, NUM_CONSUMERS, Int.fract,
    rate_rise_per_min, rate_consume_per_min] at h2

/-- C2 (amended): the per-tick computation is a deterministic pure
function of the engine state (including `_last_update_time`), the load
inputs, and the internally sampled wall-clock instant: two invocations that
agree on the engine state, the loads and the sampled clock value produce
equal results and equal successor states.  (The clock is sampled inside
`run_distribution`, not supplied by the caller.) -/
theorem C2_determinism_amended (cfg : Config) (s1 s2 : EngineState)
    (L1 L2 : ℚ) (Lu1 Lu2 : List ℚ) (t1 t2 : ℚ)
    (hs : s1 = s2) (hL : L1 = L2) (hLu : Lu1 = Lu2) (ht : t1 = t2) :
    run_distribution cfg s1 L1 Lu1 t1 = run_distribution cfg s2 L2 Lu2 t2 := by
  rw [hs, hL, hLu, ht]

/-- Witness for C2 (amended). -/
theorem C2_determinism_amended_witness :
    run_distribution defaultConfig (initial_state 0) 16 [4, 4, 4, 4] 1 =
      run_distribution defaultConfig (initial_state 0) 16 [4, 4, 4, 4] 1 :=
  C2_determinism_amended defaultConfig (initial_state 0) (initial_state 0)
    16 16 [4, 4, 4, 4] [4, 4, 4, 4] 1 1 rfl rfl rfl rfl

/-- C8: if the combined reading is unavailable, the entire tick is a
no-op — the distribution computation is not run, the engine state (all OA
records and the last-update timestamp) is returned untouched and the
previously published result stands; an unavailable individual-unit reading
is instead treated as a 0.0 load for that unit only, the tick proceeding
exactly as if that unit read a parseable zero. -/
theorem C8_missing_inputs (pf : String → Option ℚ) (cfg : Config)
    (s : EngineState) (prev : DistributionResult) (cst : Option HAState)
    (units l r : List (Option HAState)) (u : Option HAState) (z : HAState)
    (now : ℚ) :
    (get_float_state pf cst = none →
      run_controller pf cfg s prev cst units now = some (s, prev)) ∧
    (get_float_state pf u = none → get_float_state pf (some z) = some 0 →
      run_controller pf cfg s prev cst (l ++ u :: r) now =
        run_controller pf cfg s prev cst (l ++ some z :: r) now) := by
  constructor
  · intro hc
    unfold run_controller
    rw [hc]
  · intro hu hz
    unfold run_controller
    rw [List.map_append, List.map_append, List.map_cons, List.map_cons, hu, hz,
      Option.getD_none, Option.getD_some]

/-- Witness for C8: a parser that accepts exactly the string `"0.0"`; the
combined sensor missing, and an unavailable unit against a zero-reading
unit. -/
theorem C8_missing_inputs_witness :
    run_controller (fun str => if str = "0.0" then some 0 else none) defaultConfig
        (initial_state 0) ⟨0, 0, 0, [], [], []⟩ none [] 0 =
      some (initial_state 0, ⟨0, 0, 0, [], [], []⟩) ∧
    run_controller (fun str => if str = "0.0" then some 0 else none) defaultConfig
        (initial_state 0) ⟨0, 0, 0, [], [], []⟩ none
        ([] ++ some ⟨"unavailable"⟩ :: []) 0 =
      run_controller (fun str => if str = "0.0" then some 0 else none) defaultConfig
        (initial_state 0) ⟨0, 0, 0, [], [], []⟩ none
        ([] ++ some ⟨"0.0"⟩ :: []) 0 :=
  ⟨(C8_missing_inputs (fun str => if str = "0.0" then some 0 else none) defaultConfig
      (initial_state 0) ⟨0, 0, 0, [], [], []⟩ none [] [] [] none ⟨"0.0"⟩ 0).1 rfl,
   (C8_missing_inputs (fun str => if str = "0.0" then some 0 else none) defaultConfig
      (initial_state 0) ⟨0, 0, 0, [], [], []⟩ none [] [] [] (some ⟨"unavailable"⟩)
      ⟨"0.0"⟩ 0).2 (by simp [get_float_state]) (by simp [get_float_state])⟩

/-- C10 (implicit): a present but non-parseable state value — a string
Python's `float` rejects, or the literal `"unknown"` — is treated identically
to an unavailable sensor: `get_float_state` returns `none` (no exception
propagates), so such a combined reading skips the whole tick and such a unit
reading contributes exactly what an absent unit state contributes (0.0
demand). -/
theorem C10_unparseable_state (pf : String → Option ℚ) (cfg : Config)
    (s : EngineState) (prev : DistributionResult) (st : HAState)
    (cst : Option HAState) (units l r : List (Option HAState)) (now : ℚ) :
    (st.state = "unknown" ∨ pf st.state = none → get_float_state pf (some st) = none) ∧
    (get_float_state pf (some st) = none →
      run_controller pf cfg s prev (some st) units now = some (s, prev)) ∧
    (get_float_state pf (some st) = none →
      run_controller pf cfg s prev cst (l ++ some st :: r) now =
        run_controller pf cfg s prev cst (l ++ none :: r) now) := by
  refine ⟨?_, ?_, ?_⟩
  · intro hp
    rcases hp with hp | hp
    · simp [get_float_state, hp]
    · simp [get_float_state, hp]
  · intro hc
    unfold run_controller
    rw [hc]
  · intro hu
    unfold run_controller
    rw [List.map_append, List.map_append, List.map_cons, List.map_cons, hu]
    rfl

/-- Witness for C10: the non-numeric reading `"garbage"` under a parser that
accepts exactly `"0.0"`. -/
theorem C10_unparseable_state_witness :
    get_float_state (fun str => if str = "0.0" then some 0 else none)
      (some ⟨"garbage"⟩) = none ∧
    run_controller (fun str => if str = "0.0" then some 0 else none) defaultConfig
        (initial_state 0) ⟨0, 0, 0, [], [], []⟩ (some ⟨"garbage"⟩) [] 0 =
      some (initial_state 0, ⟨0, 0, 0, [], [], []⟩) :=
  ⟨(C10_unparseable_state (fun str => if str = "0.0" then some 0 else none)
      defaultConfig (initial_state 0) ⟨0, 0, 0, [], [], []⟩ ⟨"garbage"⟩ none [] [] [] 0).1
      (Or.inr (by simp)),
   (C10_unparseable_state (fun str => if str = "0.0" then some 0 else none)
      defaultConfig (initial_state 0) ⟨0, 0, 0, [], [], []⟩ ⟨"garbage"⟩ none [] [] [] 0).2.1
      (by simp [get_float_state])⟩

end PowerDistributor
